import Mathlib

/-!
Shallow embedding of the per-user log splitters of the RePlay repository.

The embedded code:
* `replay/splitters/user_log_splitter.py` — class `UserSplitter` with
  `_get_test_users`, `_split_proportion`, `_split_quantity`, `_core_split`,
  `_add_random_partition`, `_add_time_partition`.
* `sponge_bob_magic/validation_schemes/user_log_splitter.py` — the older
  `UserLogSplitter._core_split`, which tuple-unpacks the bound method objects
  `self._split_proportion` / `self._split_quantity` without calling them.

A log is a list of rows `(user_id, item_id, relevance, timestamp)`.  Rows are
identified by their position in the input dataframe, so the embedding works on
the enumerated log (`List (Nat × Row)`).  Spark's `sf.rand(seed)` attaches a
pseudo-random rational to each row position deterministically for a given
seed; it is modelled by a function `RandSource : Option Int → Nat → ℚ`
(seed, row position ↦ value), a parameter of every operation.  `row_number()
over (partitionBy user_id, orderBy k)` assigns rank `1 + #strict-predecessors`
within the user's rows; ties in the `orderBy` key are broken by row position
(Spark leaves the tie order unspecified; the embedding fixes one).
-/

namespace RePlay

/-- One row of the interaction log: `(user_id, item_id, relevance, timestamp)`. -/
structure Row where
  user : Nat
  item : Nat
  rel : Int
  ts : Int
deriving DecidableEq, Repr

/-- A row together with its position in the input dataframe. -/
abbrev IRow := Nat × Row

/-- The enumerated log: each row paired with its position. -/
def enumLog (log : List Row) : List IRow := log.enum

/-- The distinct users of the log: `log.select("user_id").distinct()`. -/
def allUsers (log : List Row) : List Nat := (log.map Row.user).dedup

/-- The rows of one user, in log order (the window partition for `user_id`). -/
def userRows (log : List Row) (u : Nat) : List IRow :=
  (enumLog log).filter (fun p => p.2.user == u)

/-- A Python number which is either an `int` or a `float`
(`isinstance(x, int)` distinguishes them). -/
inductive PyNum where
  | int (n : Int)
  | float (q : ℚ)
deriving DecidableEq, Repr

/-- The numeric value of a Python number. -/
def PyNum.val : PyNum → ℚ
  | .int n => (n : ℚ)
  | .float q => q

/-- Whether the number is a Python `int`: `isinstance(x, int)`. -/
def PyNum.isInt : PyNum → Bool
  | .int _ => true
  | .float _ => false

/-- The errors the splitters can raise: the `ValueError` of `_get_test_users`
(invalid `user_test_size`), the `ValueError` of `_core_split` (invalid
`item_test_size` / `test_size`), and the `TypeError` raised by unpacking a
non-iterable bound method object. -/
inductive SplitError where
  | invalidUserTestSize
  | invalidItemTestSize
  | typeError
deriving DecidableEq, Repr

/-- The seeded random source: `sf.rand(seed)` evaluated at a row position. -/
abbrev RandSource := Option Int → Nat → ℚ

/-- Number of strict predecessors of `p` among `l` under the strict order
`pr` — `row_number()` counts exactly these, starting the rank at 1. -/
def predCount (pr : IRow → IRow → Bool) (l : List IRow) (p : IRow) : Nat :=
  (l.filter (fun q => pr q p)).length

/-- The `row_number()` of `p` within the window rows `l` ordered by `pr`. -/
def rowNumBy (pr : IRow → IRow → Bool) (l : List IRow) (p : IRow) : Nat :=
  predCount pr l p + 1

/-- The strict order of `_add_time_partition`:
`orderBy(sf.col("timestamp").desc())`, ties broken by row position. -/
def timePrec (a b : IRow) : Bool :=
  decide (b.2.ts < a.2.ts ∨ (a.2.ts = b.2.ts ∧ a.1 < b.1))

/-- The strict order of `_add_random_partition`: `orderBy("rand")` ascending
on the seeded random column, ties broken by row position. -/
def randPrec (rand : Nat → ℚ) (a b : IRow) : Bool :=
  decide (rand a.1 < rand b.1 ∨ (rand a.1 = rand b.1 ∧ a.1 < b.1))

/-- The `UserSplitter` configuration
(`item_test_size`, `user_test_size`, `shuffle`, `seed`). -/
structure UserSplitter where
  item_test_size : PyNum
  user_test_size : Option PyNum
  shuffle : Bool
  seed : Option Int
deriving DecidableEq, Repr

/-- The per-user window order used by `_split_proportion` / `_split_quantity`:
`_add_random_partition` when `shuffle`, else `_add_time_partition`. -/
def UserSplitter.prec (s : UserSplitter) (randFn : RandSource) : IRow → IRow → Bool :=
  if s.shuffle then randPrec (randFn s.seed) else timePrec

/-- The `row_number()` of row `p` of the log within its user's window. -/
def rowNum (pr : IRow → IRow → Bool) (log : List Row) (p : IRow) : Nat :=
  rowNumBy pr (userRows log p.2.user) p

/-- Sampling step of `_get_test_users`: rank `users` by the random column
(`row_number().over(Window.orderBy("rand"))`) and keep those with
`row_num <= threshold`. -/
def sampleTop (rand : Nat → ℚ) (users : List Nat) (threshold : ℚ) : List Nat :=
  let iu := users.enum
  let before : Nat × Nat → Nat × Nat → Bool := fun q p =>
    decide (rand q.1 < rand p.1 ∨ (rand q.1 = rand p.1 ∧ q.1 < p.1))
  let keep : Nat × Nat → Bool := fun p =>
    decide ((((iu.filter (fun q => before q p)).length + 1 : Nat) : ℚ) ≤ threshold)
  (iu.filter keep).map (fun p => p.2)

/-- Embeds `UserSplitter._get_test_users`: validate `user_test_size` and sample the
candidate test users; `None` means all distinct users qualify. -/
def UserSplitter.getTestUsers (s : UserSplitter) (randFn : RandSource)
    (log : List Row) : Except SplitError (List Nat) :=
  let all_users := allUsers log
  let user_count := all_users.length
  match s.user_test_size with
  | none => .ok all_users
  | some (.int n) =>
      if 1 ≤ n ∧ n < (user_count : Int) then
        .ok (sampleTop (randFn s.seed) all_users (n : ℚ))
      else .error .invalidUserTestSize
  | some (.float q) =>
      if q < 1 ∧ 0 < q then
        .ok (sampleTop (randFn s.seed) all_users ((user_count : ℚ) * q))
      else .error .invalidUserTestSize

/-- The ranked log of `_split_proportion` / `_split_quantity`: every row with
its per-user `row_num`. -/
def rankedLog (pr : IRow → IRow → Bool) (log : List Row) : List (IRow × Nat) :=
  (enumLog log).map (fun p => (p, rowNum pr log p))

/-- The filter `test_user IS NOT NULL` after the left join with the candidate test
users: the row's user is one of them. -/
def isTUPred (tu : List Nat) (p : IRow) : Bool := decide (p.2.user ∈ tu)

/-- The filter `frac <= item_test_size`, where `frac = row_num / count` and `count` is
the row count of the row's user (`log.groupBy("user_id").count()`). -/
def fracLePred (s : UserSplitter) (log : List Row) (x : IRow × Nat) : Bool :=
  decide (((x.2 : ℚ) / (((userRows log x.1.2.user).length : ℚ)))
    ≤ s.item_test_size.val)

/-- The filter `row_num <= item_test_size`. -/
def numLePred (s : UserSplitter) (x : IRow × Nat) : Bool :=
  decide ((x.2 : ℚ) ≤ s.item_test_size.val)

/-- Embeds `UserSplitter._split_proportion`: `frac = row_num / count`; test is
`frac <= item_test_size AND test_user IS NOT NULL`, train is the complement
`frac > item_test_size OR test_user IS NULL`. -/
def UserSplitter.splitProportion (s : UserSplitter) (randFn : RandSource)
    (log : List Row) : Except SplitError (List IRow × List IRow) :=
  match s.getTestUsers randFn log with
  | .error e => .error e
  | .ok tu =>
    let res := rankedLog (s.prec randFn) log
    let train := (res.filter
      (fun x => !(fracLePred s log x) || !(isTUPred tu x.1))).map (fun x => x.1)
    let test := (res.filter
      (fun x => fracLePred s log x && isTUPred tu x.1)).map (fun x => x.1)
    .ok (train, test)

/-- Embeds `UserSplitter._split_quantity`: test is
`row_num <= item_test_size AND test_user IS NOT NULL`, train is the complement
`row_num > item_test_size OR test_user IS NULL`. -/
def UserSplitter.splitQuantity (s : UserSplitter) (randFn : RandSource)
    (log : List Row) : Except SplitError (List IRow × List IRow) :=
  match s.getTestUsers randFn log with
  | .error e => .error e
  | .ok tu =>
    let res := rankedLog (s.prec randFn) log
    let train := (res.filter
      (fun x => !(numLePred s x) || !(isTUPred tu x.1))).map (fun x => x.1)
    let test := (res.filter
      (fun x => numLePred s x && isTUPred tu x.1)).map (fun x => x.1)
    .ok (train, test)

/-- Embeds `UserSplitter._core_split`: dispatch on `item_test_size`
(`0 <= x < 1` → proportion; `x >= 1 and isinstance(x, int)` → quantity;
otherwise `ValueError`). -/
def UserSplitter.coreSplit (s : UserSplitter) (randFn : RandSource)
    (log : List Row) : Except SplitError (List IRow × List IRow) :=
  if 0 ≤ s.item_test_size.val ∧ s.item_test_size.val < 1 then
    s.splitProportion randFn log
  else if 1 ≤ s.item_test_size.val ∧ s.item_test_size.isInt then
    s.splitQuantity randFn log
  else .error .invalidItemTestSize

/-- A Python value being tuple-unpacked in the old `_core_split`: either a
bound method object (the buggy `self._split_proportion` without a call) or an
actual triple of dataframes. -/
inductive PyTriple where
  | boundMethod
  | triple (a b c : List IRow)
deriving DecidableEq, Repr

/-- Statement `train, train, test = x`: tuple-unpacking of a Python value into three
targets; a bound method object is not iterable, so unpacking it raises
`TypeError`. -/
def unpackTriple : PyTriple → Except SplitError (List IRow × List IRow × List IRow)
  | .boundMethod => .error .typeError
  | .triple a b c => .ok (a, b, c)

/-- The older `UserLogSplitter` configuration (`test_size`, `seed`). -/
structure UserLogSplitter where
  test_size : ℚ
  seed : Int
deriving DecidableEq, Repr

/-- Embeds `UserLogSplitter._core_split` of the old `sponge_bob_magic` variant: both
branches execute `train, train, test = self._split_proportion` (resp.
`self._split_quantity`) — the bound method object itself is unpacked, not its
result — and only `test_size < 0` reaches the `ValueError`. -/
def UserLogSplitter.coreSplit (s : UserLogSplitter) :
    Except SplitError (List IRow × List IRow × List IRow) :=
  if 0 ≤ s.test_size ∧ s.test_size ≤ 1 then
    match unpackTriple .boundMethod with
    | .error e => .error e
    | .ok (_, train, test) => .ok (train, train, test)
  else if 1 ≤ s.test_size then
    match unpackTriple .boundMethod with
    | .error e => .error e
    | .ok (_, train, test) => .ok (train, train, test)
  else .error .invalidItemTestSize

/-! ### Basic facts about the window orders and the per-user windows -/

theorem timePrec_trans (a b c : IRow) (hab : timePrec a b = true)
    (hbc : timePrec b c = true) : timePrec a c = true := by
  simp only [timePrec, decide_eq_true_eq] at *
  rcases hab with h1 | ⟨e1, i1⟩ <;> rcases hbc with h2 | ⟨e2, i2⟩
  · exact Or.inl (lt_trans h2 h1)
  · exact Or.inl (e2 ▸ h1)
  · exact Or.inl (e1 ▸ h2)
  · exact Or.inr ⟨e1.trans e2, lt_trans i1 i2⟩

theorem timePrec_irrefl (a : IRow) : timePrec a a = false := by
  simp [timePrec]

theorem timePrec_total (a b : IRow) (h : a.1 ≠ b.1) :
    timePrec a b = true ∨ timePrec b a = true := by
  simp only [timePrec, decide_eq_true_eq]
  rcases lt_trichotomy a.2.ts b.2.ts with ht | ht | ht
  · exact Or.inr (Or.inl ht)
  · rcases Nat.lt_or_ge a.1 b.1 with hi | hi
    · exact Or.inl (Or.inr ⟨ht, hi⟩)
    · exact Or.inr (Or.inr ⟨ht.symm, lt_of_le_of_ne hi (Ne.symm h)⟩)
  · exact Or.inl (Or.inl ht)

theorem randPrec_trans (rand : Nat → ℚ) (a b c : IRow)
    (hab : randPrec rand a b = true) (hbc : randPrec rand b c = true) :
    randPrec rand a c = true := by
  simp only [randPrec, decide_eq_true_eq] at *
  rcases hab with h1 | ⟨e1, i1⟩ <;> rcases hbc with h2 | ⟨e2, i2⟩
  · exact Or.inl (lt_trans h1 h2)
  · exact Or.inl (e2 ▸ h1)
  · exact Or.inl (e1 ▸ h2)
  · exact Or.inr ⟨e1.trans e2, lt_trans i1 i2⟩

theorem randPrec_irrefl (rand : Nat → ℚ) (a : IRow) : randPrec rand a a = false := by
  simp [randPrec]

theorem randPrec_total (rand : Nat → ℚ) (a b : IRow) (h : a.1 ≠ b.1) :
    randPrec rand a b = true ∨ randPrec rand b a = true := by
  simp only [randPrec, decide_eq_true_eq]
  rcases lt_trichotomy (rand a.1) (rand b.1) with ht | ht | ht
  · exact Or.inl (Or.inl ht)
  · rcases Nat.lt_or_ge a.1 b.1 with hi | hi
    · exact Or.inl (Or.inr ⟨ht, hi⟩)
    · exact Or.inr (Or.inr ⟨ht.symm, lt_of_le_of_ne hi (Ne.symm h)⟩)
  · exact Or.inr (Or.inl ht)

theorem prec_trans (s : UserSplitter) (randFn : RandSource) (a b c : IRow)
    (hab : s.prec randFn a b = true) (hbc : s.prec randFn b c = true) :
    s.prec randFn a c = true := by
  unfold UserSplitter.prec at *
  split at hab <;> simp_all only
  · exact randPrec_trans _ a b c hab hbc
  · exact timePrec_trans a b c hab hbc

theorem prec_irrefl (s : UserSplitter) (randFn : RandSource) (a : IRow) :
    s.prec randFn a a = false := by
  unfold UserSplitter.prec
  split
  · exact randPrec_irrefl _ a
  · exact timePrec_irrefl a

theorem prec_total (s : UserSplitter) (randFn : RandSource) (a b : IRow)
    (h : a.1 ≠ b.1) : s.prec randFn a b = true ∨ s.prec randFn b a = true := by
  unfold UserSplitter.prec
  split
  · exact randPrec_total _ a b h
  · exact timePrec_total a b h

theorem mem_userRows (log : List Row) (u : Nat) (p : IRow) :
    p ∈ userRows log u ↔ p ∈ enumLog log ∧ p.2.user = u := by
  simp [userRows, List.mem_filter]

theorem self_mem_userRows (log : List Row) (p : IRow) (h : p ∈ enumLog log) :
    p ∈ userRows log p.2.user :=
  (mem_userRows log p.2.user p).2 ⟨h, rfl⟩

theorem userRows_map_fst_nodup (log : List Row) (u : Nat) :
    ((userRows log u).map Prod.fst).Nodup := by
  have hsub : List.Sublist (userRows log u) (enumLog log) := List.filter_sublist _
  exact (List.nodup_enum_map_fst log).sublist (hsub.map Prod.fst)

theorem userRows_nodup (log : List Row) (u : Nat) : (userRows log u).Nodup :=
  (userRows_map_fst_nodup log u).of_map Prod.fst

theorem userRows_fst_inj (log : List Row) (u : Nat) (a b : IRow)
    (ha : a ∈ userRows log u) (hb : b ∈ userRows log u) (h : a ≠ b) :
    a.1 ≠ b.1 := fun e =>
  h (List.inj_on_of_nodup_map (userRows_map_fst_nodup log u) ha hb e)

theorem userRows_length_pos (log : List Row) (p : IRow) (h : p ∈ enumLog log) :
    0 < (userRows log p.2.user).length :=
  List.length_pos.2 (fun e => by
    have := self_mem_userRows log p h
    rw [e] at this
    exact (List.not_mem_nil p) this)

/-! ### The rank bijection: `row_number` over a strict total order sends the
`k` rows of a window bijectively to `1..k`, so the rows with rank below a
threshold `m` number exactly `min m k`. -/

theorem predCount_eq_card (pr : IRow → IRow → Bool) (l : List IRow)
    (hnd : l.Nodup) (p : IRow) :
    predCount pr l p = (l.toFinset.filter (fun q => pr q p = true)).card := by
  have h1 : (l.filter (fun q => pr q p)).toFinset
      = l.toFinset.filter (fun q => pr q p = true) := by
    rw [List.toFinset_filter]
  rw [← h1, List.toFinset_card_of_nodup (hnd.filter _)]
  rfl

theorem countP_rank_lt (pr : IRow → IRow → Bool) (l : List IRow)
    (hnd : l.Nodup)
    (htr : ∀ a b c, pr a b = true → pr b c = true → pr a c = true)
    (hirr : ∀ a, pr a a = false)
    (htot : ∀ a ∈ l, ∀ b ∈ l, a ≠ b → pr a b = true ∨ pr b a = true)
    (m : Nat) :
    l.countP (fun p => decide (predCount pr l p < m)) = min m l.length := by
  classical
  set F := l.toFinset with hF
  set f : IRow → Nat := fun p => predCount pr l p with hf
  have hcard : F.card = l.length := List.toFinset_card_of_nodup hnd
  have hfc : ∀ p, f p = (F.filter (fun q => pr q p = true)).card := fun p =>
    predCount_eq_card pr l hnd p
  have hlt : ∀ p ∈ F, f p < l.length := by
    intro p hp
    rw [hfc p, ← hcard]
    apply Finset.card_lt_card
    constructor
    · exact Finset.filter_subset _ _
    · intro hsub
      have := hsub hp
      rw [Finset.mem_filter] at this
      rw [hirr p] at this
      exact Bool.false_ne_true this.2
  have key : ∀ p ∈ F, ∀ q ∈ F, pr p q = true → f p < f q := by
    intro p hp q hq hpq
    rw [hfc p, hfc q]
    apply Finset.card_lt_card
    constructor
    · intro x hx
      rw [Finset.mem_filter] at hx ⊢
      exact ⟨hx.1, htr x p q hx.2 hpq⟩
    · intro hsub
      have := hsub (Finset.mem_filter.2 ⟨hp, hpq⟩)
      rw [Finset.mem_filter] at this
      rw [hirr p] at this
      exact Bool.false_ne_true this.2
  have hinj : Set.InjOn f F := by
    intro p hp q hq he
    rw [Finset.mem_coe] at hp hq
    by_contra hne
    rcases htot p (List.mem_toFinset.1 hp) q (List.mem_toFinset.1 hq) hne with h | h
    · exact absurd he (Nat.ne_of_lt (key p hp q hq h))
    · exact absurd he.symm (Nat.ne_of_lt (key q hq p hp h))
  have himg : F.image f = Finset.range l.length := by
    apply Finset.eq_of_subset_of_card_le
    · intro x hx
      rw [Finset.mem_image] at hx
      obtain ⟨p, hp, rfl⟩ := hx
      exact Finset.mem_range.2 (hlt p hp)
    · rw [Finset.card_range, Finset.card_image_of_injOn hinj, hcard]
  have hcount : l.countP (fun p => decide (f p < m))
      = (F.filter (fun p => f p < m)).card := by
    rw [List.countP_eq_length_filter,
      ← List.toFinset_card_of_nodup (hnd.filter _), List.toFinset_filter]
    congr 1
    apply Finset.filter_congr
    intro x _
    simp
  rw [hcount]
  have hstep : (F.filter (fun p => f p < m)).card
      = ((F.image f).filter (fun j => j < m)).card := by
    rw [Finset.filter_image]
    exact (Finset.card_image_of_injOn
      (hinj.mono (by exact_mod_cast Finset.filter_subset _ F))).symm
  rw [hstep, himg]
  have hrange : (Finset.range l.length).filter (fun j => j < m)
      = Finset.range (min m l.length) := by
    ext j
    simp only [Finset.mem_filter, Finset.mem_range, Nat.lt_min]
    exact ⟨fun h => ⟨h.2, h.1⟩, fun h => ⟨h.2, h.1⟩⟩
  rw [hrange, Finset.card_range]

/-! ### Shape of the split outputs -/

theorem map_fst_rankedLog (pr : IRow → IRow → Bool) (log : List Row) :
    (rankedLog pr log).map (fun x => x.1) = enumLog log := by
  simp [rankedLog, List.map_map, Function.comp_def]

theorem mem_filterRanked (c : IRow × Nat → Bool) (pr : IRow → IRow → Bool)
    (log : List Row) (p : IRow) :
    p ∈ ((rankedLog pr log).filter c).map (fun x => x.1) ↔
      p ∈ enumLog log ∧ c (p, rowNum pr log p) = true := by
  simp only [rankedLog, List.mem_map, List.mem_filter, List.mem_map]
  constructor
  · rintro ⟨x, ⟨⟨q, hq, rfl⟩, hc⟩, rfl⟩
    exact ⟨hq, hc⟩
  · intro ⟨hp, hc⟩
    exact ⟨(p, rowNum pr log p), ⟨⟨p, hp, rfl⟩, hc⟩, rfl⟩

theorem length_filter_user_ranked (c : IRow × Nat → Bool) (pr : IRow → IRow → Bool)
    (log : List Row) (u : Nat) :
    ((((rankedLog pr log).filter c).map (fun x => x.1)).filter
        (fun p => p.2.user == u)).length
      = (userRows log u).countP (fun p => c (p, rowNumBy pr (userRows log u) p)) := by
  rw [← List.countP_eq_length_filter, List.countP_map, rankedLog, List.countP_filter,
    List.countP_map]
  rw [userRows, List.countP_filter]
  apply List.countP_congr
  intro p _
  simp only [Function.comp_apply, Bool.and_eq_true, beq_iff_eq, decide_eq_true_eq]
  constructor
  · intro ⟨hu, hc⟩
    refine ⟨?_, hu⟩
    rw [rowNum] at hc
    rwa [hu] at hc
  · intro ⟨hc, hu⟩
    refine ⟨hu, ?_⟩
    rw [rowNum, hu]
    exact hc

theorem mem_allUsers (log : List Row) (p : IRow) (h : p ∈ enumLog log) :
    p.2.user ∈ allUsers log := by
  rw [allUsers, List.mem_dedup, List.mem_map]
  exact ⟨p.2, List.snd_mem_of_mem_enumFrom h, rfl⟩

theorem getTestUsers_none (s : UserSplitter) (randFn : RandSource) (log : List Row)
    (h : s.user_test_size = none) :
    s.getTestUsers randFn log = .ok (allUsers log) := by
  unfold UserSplitter.getTestUsers
  rw [h]

theorem getTestUsers_error_eq (s : UserSplitter) (randFn : RandSource)
    (log : List Row) (e : SplitError)
    (h : s.getTestUsers randFn log = .error e) : e = .invalidUserTestSize := by
  unfold UserSplitter.getTestUsers at h
  rcases hu : s.user_test_size with _ | uts
  · rw [hu] at h
    exact absurd h (by simp)
  · rcases uts with n | q <;> rw [hu] at h <;> simp only at h <;> split at h <;>
      simp_all

theorem splitPair_partition (c : IRow × Nat → Bool) (pr : IRow → IRow → Bool)
    (log : List Row) (train test : List IRow)
    (htr : train = ((rankedLog pr log).filter (fun x => !(c x))).map (fun x => x.1))
    (hte : test = ((rankedLog pr log).filter c).map (fun x => x.1)) :
    (train ++ test).Perm (enumLog log) ∧ ∀ p : IRow, ¬(p ∈ train ∧ p ∈ test) := by
  subst htr
  subst hte
  constructor
  · have h := (List.perm_append_comm.trans
      (List.filter_append_perm c (rankedLog pr log))).map (fun x : IRow × Nat => x.1)
    rw [List.map_append] at h
    rw [map_fst_rankedLog] at h
    exact h
  · intro p
    rw [mem_filterRanked, mem_filterRanked]
    rintro ⟨⟨-, h1⟩, ⟨-, h2⟩⟩
    rw [h2] at h1
    simp at h1

theorem splitProportion_error_eq (s : UserSplitter) (randFn : RandSource)
    (log : List Row) (e : SplitError)
    (h : s.splitProportion randFn log = .error e) : e = .invalidUserTestSize := by
  unfold UserSplitter.splitProportion at h
  rcases htu : s.getTestUsers randFn log with e' | tu <;> simp only [htu] at h
  · cases h
    exact getTestUsers_error_eq s randFn log _ htu
  · exact absurd h (by simp)

theorem splitQuantity_error_eq (s : UserSplitter) (randFn : RandSource)
    (log : List Row) (e : SplitError)
    (h : s.splitQuantity randFn log = .error e) : e = .invalidUserTestSize := by
  unfold UserSplitter.splitQuantity at h
  rcases htu : s.getTestUsers randFn log with e' | tu <;> simp only [htu] at h
  · cases h
    exact getTestUsers_error_eq s randFn log _ htu
  · exact absurd h (by simp)

theorem splitProportion_eq (s : UserSplitter) (randFn : RandSource)
    (log : List Row) (tu : List Nat)
    (htu : s.getTestUsers randFn log = .ok tu) :
    s.splitProportion randFn log = .ok
      (((rankedLog (s.prec randFn) log).filter
          (fun x => !(fracLePred s log x) || !(isTUPred tu x.1))).map (fun x => x.1),
       ((rankedLog (s.prec randFn) log).filter
          (fun x => fracLePred s log x && isTUPred tu x.1)).map (fun x => x.1)) := by
  unfold UserSplitter.splitProportion
  rw [htu]

theorem splitQuantity_eq (s : UserSplitter) (randFn : RandSource)
    (log : List Row) (tu : List Nat)
    (htu : s.getTestUsers randFn log = .ok tu) :
    s.splitQuantity randFn log = .ok
      (((rankedLog (s.prec randFn) log).filter
          (fun x => !(numLePred s x) || !(isTUPred tu x.1))).map (fun x => x.1),
       ((rankedLog (s.prec randFn) log).filter
          (fun x => numLePred s x && isTUPred tu x.1)).map (fun x => x.1)) := by
  unfold UserSplitter.splitQuantity
  rw [htu]

theorem not_and_filter_form (a b : IRow × Nat → Bool) :
    (fun x => !(a x) || !(b x)) = (fun x => !(a x && b x)) := by
  funext x
  rw [Bool.not_and]

/-- C1: for every input log and every valid `item_test_size`, the train and
test outputs of `UserSplitter._core_split` are disjoint, and every row of the
input log appears in exactly one of train/test: the train and test filter
predicates are exact complements, so `train ++ test` is a permutation of the
(enumerated) input log and no row lies in both. -/
theorem C1_core_split_partition (s : UserSplitter) (randFn : RandSource)
    (log : List Row) (train test : List IRow)
    (h : s.coreSplit randFn log = .ok (train, test)) :
    (train ++ test).Perm (enumLog log) ∧ ∀ p : IRow, ¬(p ∈ train ∧ p ∈ test) := by
  unfold UserSplitter.coreSplit at h
  split at h
  · rcases htu : s.getTestUsers randFn log with e' | tu
    · rw [UserSplitter.splitProportion, htu] at h
      exact absurd h (by simp)
    · rw [splitProportion_eq s randFn log tu htu, Except.ok.injEq, Prod.mk.injEq] at h
      obtain ⟨h1, h2⟩ := h
      rw [not_and_filter_form (fracLePred s log) (fun x => isTUPred tu x.1)] at h1
      exact splitPair_partition (fun x => fracLePred s log x && isTUPred tu x.1)
        (s.prec randFn) log train test h1.symm h2.symm
  · split at h
    · rcases htu : s.getTestUsers randFn log with e' | tu
      · rw [UserSplitter.splitQuantity, htu] at h
        exact absurd h (by simp)
      · rw [splitQuantity_eq s randFn log tu htu, Except.ok.injEq, Prod.mk.injEq] at h
        obtain ⟨h1, h2⟩ := h
        rw [not_and_filter_form (numLePred s) (fun x => isTUPred tu x.1)] at h1
        exact splitPair_partition (fun x => numLePred s x && isTUPred tu x.1)
          (s.prec randFn) log train test h1.symm h2.symm
    · exact absurd h (by simp)

/-- C5: `UserSplitter._core_split` raises its parameter `ValueError`
(`invalidItemTestSize`) if and only if `item_test_size` is neither a number in
`[0,1)` nor an integer `>= 1` — negative values and non-integer values `>= 1`
are rejected — and in that case no train/test output is produced (the result
is the error, not an `ok` pair). -/
theorem C5_item_test_size_validation (s : UserSplitter) (randFn : RandSource)
    (log : List Row) :
    s.coreSplit randFn log = .error .invalidItemTestSize
      ↔ ¬((0 ≤ s.item_test_size.val ∧ s.item_test_size.val < 1)
          ∨ (s.item_test_size.isInt = true ∧ 1 ≤ s.item_test_size.val)) := by
  unfold UserSplitter.coreSplit
  split
  case isTrue h1 =>
    constructor
    · intro he
      exact absurd (splitProportion_error_eq s randFn log _ he) (by simp)
    · intro hn
      exact absurd (Or.inl h1) hn
  case isFalse h1 =>
    split
    case isTrue h2 =>
      constructor
      · intro he
        exact absurd (splitQuantity_error_eq s randFn log _ he) (by simp)
      · intro hn
        exact absurd (Or.inr ⟨h2.2, h2.1⟩) hn
    case isFalse h2 =>
      constructor
      · rintro - (hc | hc)
        · exact h1 hc
        · exact h2 ⟨hc.2, hc.1⟩
      · intro _
        rfl

/-- C7: every row of a user outside the candidate test-user set goes to train
and not to test (its `test_user` is null after the left join), in both the
fractional and the count branch of `_core_split`; and when `user_test_size`
is unset the candidate set is all distinct users of the log. -/
theorem C7_non_test_users_to_train (s : UserSplitter) (randFn : RandSource)
    (log : List Row) (tu : List Nat) (u : Nat) (train test : List IRow)
    (htu : s.getTestUsers randFn log = .ok tu) (hu : u ∉ tu)
    (h : s.coreSplit randFn log = .ok (train, test)) :
    (∀ p : IRow, p ∈ enumLog log → p.2.user = u → p ∈ train ∧ p ∉ test)
      ∧ (s.user_test_size = none → tu = allUsers log) := by
  constructor
  · intro p hp hpu
    have hTU : isTUPred tu p = false := by
      rw [isTUPred, hpu]
      exact decide_eq_false hu
    unfold UserSplitter.coreSplit at h
    split at h
    · rw [splitProportion_eq s randFn log tu htu, Except.ok.injEq, Prod.mk.injEq] at h
      obtain ⟨h1, h2⟩ := h
      subst h1
      subst h2
      constructor
      · rw [mem_filterRanked]
        refine ⟨hp, ?_⟩
        rw [hTU]
        simp
      · rw [mem_filterRanked]
        rintro ⟨-, hc⟩
        rw [hTU] at hc
        simp at hc
    · split at h
      · rw [splitQuantity_eq s randFn log tu htu, Except.ok.injEq, Prod.mk.injEq] at h
        obtain ⟨h1, h2⟩ := h
        subst h1
        subst h2
        constructor
        · rw [mem_filterRanked]
          refine ⟨hp, ?_⟩
          rw [hTU]
          simp
        · rw [mem_filterRanked]
          rintro ⟨-, hc⟩
          rw [hTU] at hc
          simp at hc
      · exact absurd h (by simp)
  · intro hnone
    have := getTestUsers_none s randFn log hnone
    rw [htu] at this
    exact Except.ok.inj this

/-- C8: two invocations of `_core_split` on the same log with identical
parameters, identical seed and `shuffle = true` produce identical train/test
partitions — the computation depends on the random source only through its
values at the configured seed (both the per-user random ranking and the
test-user sampling draw from `sf.rand(seed)`). -/
theorem C8_determinism (s : UserSplitter) (r1 r2 : RandSource) (log : List Row)
    (hsh : s.shuffle = true) (h : r1 s.seed = r2 s.seed) :
    s.coreSplit r1 log = s.coreSplit r2 log := by
  have hg : s.getTestUsers r1 log = s.getTestUsers r2 log := by
    unfold UserSplitter.getTestUsers
    rw [h]
  have hp : s.prec r1 = s.prec r2 := by
    unfold UserSplitter.prec
    rw [h]
  unfold UserSplitter.coreSplit UserSplitter.splitProportion UserSplitter.splitQuantity
  rw [hg, hp]

/-- C9: for `item_test_size = 0` — accepted by the validation into the
fractional branch — the test output is empty and the train output is the
whole input log, for every log, every shuffle setting and every
`user_test_size` accepted by `_get_test_users`, because every row's
`row_num / count` fraction is strictly positive. -/
theorem C9_zero_item_test_size (s : UserSplitter) (randFn : RandSource)
    (log : List Row) (tu : List Nat) (h0 : s.item_test_size.val = 0)
    (htu : s.getTestUsers randFn log = .ok tu) :
    s.coreSplit randFn log = .ok (enumLog log, []) := by
  have hc : 0 ≤ s.item_test_size.val ∧ s.item_test_size.val < 1 := by
    rw [h0]
    norm_num
  have hfrac : ∀ x ∈ rankedLog (s.prec randFn) log, fracLePred s log x = false := by
    rintro x hx
    rw [rankedLog, List.mem_map] at hx
    obtain ⟨p, hp, rfl⟩ := hx
    have hk : (0 : ℚ) < ((userRows log p.2.user).length : ℚ) := by
      exact_mod_cast userRows_length_pos log p hp
    have hr : (0 : ℚ) < ((rowNum (s.prec randFn) log p : Nat) : ℚ) := by
      have : 0 < rowNum (s.prec randFn) log p := Nat.succ_pos _
      exact_mod_cast this
    have hpos : 0 < ((rowNum (s.prec randFn) log p : Nat) : ℚ)
        / ((userRows log p.2.user).length : ℚ) := div_pos hr hk
    rw [fracLePred, h0]
    exact decide_eq_false (not_le.2 hpos)
  unfold UserSplitter.coreSplit
  rw [if_pos hc, splitProportion_eq s randFn log tu htu, Except.ok.injEq, Prod.mk.injEq]
  constructor
  · have hall : (rankedLog (s.prec randFn) log).filter
        (fun x => !(fracLePred s log x) || !(isTUPred tu x.1))
        = rankedLog (s.prec randFn) log := by
      rw [List.filter_eq_self]
      intro x hx
      rw [hfrac x hx]
      simp
    rw [hall, map_fst_rankedLog]
  · have hnone : (rankedLog (s.prec randFn) log).filter
        (fun x => fracLePred s log x && isTUPred tu x.1) = [] := by
      rw [List.filter_eq_nil]
      intro x hx
      rw [hfrac x hx]
      simp
    rw [hnone]
    rfl

/-- C6: when `user_test_size` is set, `_get_test_users` raises its parameter
`ValueError` if and only if `user_test_size` is an integer `< 1` or
`>=` the number of distinct users of the log, or a non-integer number outside
the open interval `(0,1)`; the error is the whole result, so no split output
is produced. In particular `user_test_size = 1.2` with a single-user log
raises the error. -/
theorem C6_user_test_size_validation (s : UserSplitter) (randFn : RandSource)
    (log : List Row) (uts : PyNum) (h : s.user_test_size = some uts) :
    s.getTestUsers randFn log = .error .invalidUserTestSize
      ↔ (if uts.isInt then
            uts.val < 1 ∨ (((allUsers log).length : ℚ)) ≤ uts.val
          else uts.val ≤ 0 ∨ 1 ≤ uts.val) := by
  unfold UserSplitter.getTestUsers
  rw [h]
  rcases uts with n | q
  · simp only [PyNum.isInt, if_true, PyNum.val]
    split
    case isTrue hc =>
      constructor
      · intro he
        exact absurd he (by simp)
      · rintro (hlt | hle)
        · have : n < 1 := by exact_mod_cast hlt
          exact absurd this (not_lt.2 hc.1)
        · have : ((allUsers log).length : ℤ) ≤ n := by exact_mod_cast hle
          exact absurd this (not_le.2 hc.2)
    case isFalse hc =>
      constructor
      · intro _
        by_cases h1 : 1 ≤ n
        · refine Or.inr ?_
          have h2 : ¬(n < ((allUsers log).length : ℤ)) := fun hx => hc ⟨h1, hx⟩
          exact_mod_cast not_lt.1 h2
        · refine Or.inl ?_
          exact_mod_cast not_le.1 h1
      · intro _
        rfl
  · simp only [PyNum.isInt, if_false, PyNum.val]
    split
    case isTrue hc =>
      constructor
      · intro he
        exact absurd he (by simp)
      · rintro (hle | hge)
        · exact absurd hle (not_le.2 hc.2)
        · exact absurd hge (not_le.2 hc.1)
    case isFalse hc =>
      constructor
      · intro _
        by_cases h1 : q < 1
        · exact Or.inl (not_lt.1 fun hx => hc ⟨h1, hx⟩)
        · exact Or.inr (not_lt.1 h1)
      · intro _
        rfl

/-- C10: the older `UserLogSplitter._core_split` never returns a result for
any `test_size >= 0`: both branches unpack the bound method object
`self._split_proportion` / `self._split_quantity` without calling it, which
raises `TypeError`; only `test_size < 0` reaches the intended `ValueError`. -/
theorem C10_old_core_split_always_fails (s : UserLogSplitter) :
    (0 ≤ s.test_size → s.coreSplit = .error .typeError)
      ∧ (s.test_size < 0 → s.coreSplit = .error .invalidItemTestSize) := by
  constructor
  · intro h0
    unfold UserLogSplitter.coreSplit
    split
    case isTrue hc =>
      rfl
    case isFalse hc =>
      rw [if_pos]
      · rfl
      · by_contra h1
        have := not_le.1 h1
        exact hc ⟨h0, le_of_lt this⟩
  · intro hneg
    unfold UserLogSplitter.coreSplit
    rw [if_neg, if_neg]
    · exact fun h1 => absurd hneg (not_lt.2 (le_trans (by norm_num) h1))
    · exact fun hc => absurd hneg (not_lt.2 hc.1)

/-- C2: with `shuffle = false` and an integer `item_test_size = n >= 1`, for
every candidate test user `u` a row of `u` is in test exactly when its
per-user rank by descending timestamp is `<= n` (so test holds exactly `u`'s
`n` most recent events); and a row that is strictly the most recent of its
user has rank 1.  On the spec's example log (user 1, items `[1,2,3]`,
timestamps `[1,2,3]`, `n = 1`) this puts exactly item 3 in test — see the
witness. -/
theorem C2_temporal_count_mode (s : UserSplitter) (randFn : RandSource)
    (log : List Row) (n : ℤ) (tu : List Nat) (u : Nat) (train test : List IRow)
    (hits : s.item_test_size = .int n) (hn : 1 ≤ n)
    (hsh : s.shuffle = false)
    (htu : s.getTestUsers randFn log = .ok tu) (hu : u ∈ tu)
    (h : s.coreSplit randFn log = .ok (train, test)) :
    (∀ p : IRow, p.2.user = u →
        (p ∈ test ↔ p ∈ enumLog log ∧ (rowNum timePrec log p : ℤ) ≤ n))
      ∧ (∀ p : IRow, p ∈ enumLog log →
          (∀ q ∈ userRows log p.2.user, q ≠ p → q.2.ts < p.2.ts) →
          rowNum timePrec log p = 1) := by
  have hval : s.item_test_size.val = (n : ℚ) := by
    rw [hits]
    rfl
  have hpr : s.prec randFn = timePrec := by
    unfold UserSplitter.prec
    rw [hsh]
    rfl
  unfold UserSplitter.coreSplit at h
  rw [if_neg, if_pos] at h
  · rw [splitQuantity_eq s randFn log _ htu, Except.ok.injEq, Prod.mk.injEq] at h
    obtain ⟨h1, h2⟩ := h
    subst h1
    subst h2
    constructor
    · intro p hpu
      rw [hpr, mem_filterRanked]
      constructor
      · rintro ⟨hp, hc⟩
        refine ⟨hp, ?_⟩
        rw [Bool.and_eq_true, numLePred] at hc
        have hc1 := of_decide_eq_true hc.1
        rw [hval] at hc1
        exact_mod_cast hc1
      · rintro ⟨hp, hle⟩
        refine ⟨hp, ?_⟩
        rw [Bool.and_eq_true, numLePred]
        constructor
        · apply decide_eq_true
          rw [hval]
          exact_mod_cast hle
        · rw [isTUPred, hpu]
          exact decide_eq_true hu
    · intro p hp hmax
      rw [rowNum, rowNumBy, predCount]
      have hnil : (userRows log p.2.user).filter (fun q => timePrec q p) = [] := by
        rw [List.filter_eq_nil]
        intro q hq hqp
        by_cases hqe : q = p
        · subst hqe
          rw [timePrec_irrefl] at hqp
          exact Bool.false_ne_true hqp
        · have hlt := hmax q hq hqe
          rw [timePrec, decide_eq_true_eq] at hqp
          rcases hqp with h1 | ⟨h1, -⟩
          · exact absurd hlt (not_lt.2 (le_of_lt h1))
          · exact absurd hlt (not_lt.2 (le_of_eq h1.symm))
      rw [hnil]
      rfl
  · constructor
    · rw [hval]
      exact_mod_cast hn
    · rw [hits]
      rfl
  · rintro ⟨-, hlt⟩
    rw [hval] at hlt
    have : n < 1 := by exact_mod_cast hlt
    omega

theorem test_count_min (s : UserSplitter) (randFn : RandSource) (log : List Row)
    (tu : List Nat) (u : Nat) (m : Nat) (c : IRow × Nat → Bool)
    (hu : u ∈ tu)
    (hc : ∀ p ∈ userRows log u,
        c (p, rowNumBy (s.prec randFn) (userRows log u) p)
          = decide (predCount (s.prec randFn) (userRows log u) p < m)) :
    ((((rankedLog (s.prec randFn) log).filter
        (fun x => c x && isTUPred tu x.1)).map (fun x => x.1)).filter
        (fun p => p.2.user == u)).length = min m (userRows log u).length := by
  rw [length_filter_user_ranked]
  have h1 : (userRows log u).countP
      (fun p => c (p, rowNumBy (s.prec randFn) (userRows log u) p) && isTUPred tu p)
      = (userRows log u).countP
      (fun p => decide (predCount (s.prec randFn) (userRows log u) p < m)) := by
    apply List.countP_congr
    intro p hp
    have hpu : p.2.user = u := ((mem_userRows log u p).1 hp).2
    have htup : isTUPred tu p = true := by
      rw [isTUPred, hpu]
      exact decide_eq_true hu
    rw [htup, Bool.and_true, hc p hp]
  rw [h1]
  exact countP_rank_lt (s.prec randFn) (userRows log u) (userRows_nodup log u)
    (prec_trans s randFn) (prec_irrefl s randFn)
    (fun a ha b hb hne => prec_total s randFn a b (userRows_fst_inj log u a b ha hb hne)) m

/-- C3: in fractional mode (`item_test_size = f` with `0 <= f < 1`), a
candidate test user's event is in test iff its per-user rank `r` satisfies
`r / k <= f` (`k` the user's event count), so the user's test count is
exactly `⌊k * f⌋`; in particular a user with one event and `f < 1`
contributes no test rows. -/
theorem C3_fractional_mode (s : UserSplitter) (randFn : RandSource)
    (log : List Row) (tu : List Nat) (u : Nat) (train test : List IRow)
    (h0 : 0 ≤ s.item_test_size.val) (h1 : s.item_test_size.val < 1)
    (htu : s.getTestUsers randFn log = .ok tu) (hu : u ∈ tu)
    (h : s.coreSplit randFn log = .ok (train, test)) :
    (∀ p : IRow, p ∈ enumLog log → p.2.user = u →
        (p ∈ test ↔ ((rowNum (s.prec randFn) log p : ℚ)
          / ((userRows log u).length : ℚ) ≤ s.item_test_size.val)))
      ∧ (test.filter (fun p => p.2.user == u)).length
          = (⌊((userRows log u).length : ℚ) * s.item_test_size.val⌋).toNat := by
  unfold UserSplitter.coreSplit at h
  rw [if_pos ⟨h0, h1⟩, splitProportion_eq s randFn log tu htu, Except.ok.injEq,
    Prod.mk.injEq] at h
  obtain ⟨h1e, h2e⟩ := h
  subst h1e
  subst h2e
  set f := s.item_test_size.val with hf
  set k := (userRows log u).length with hk
  have hflnn : 0 ≤ ⌊(k : ℚ) * f⌋ :=
    Int.floor_nonneg.2 (mul_nonneg (by positivity) h0)
  constructor
  · intro p hp hpu
    rw [mem_filterRanked]
    constructor
    · rintro ⟨-, hc⟩
      rw [Bool.and_eq_true, fracLePred] at hc
      have := of_decide_eq_true hc.1
      rwa [hpu] at this
    · intro hle
      refine ⟨hp, ?_⟩
      rw [Bool.and_eq_true, fracLePred]
      refine ⟨decide_eq_true ?_, decide_eq_true ?_⟩
      · rw [hpu]
        exact hle
      · rw [hpu]
        exact hu
  · rw [test_count_min s randFn log tu u (⌊(k : ℚ) * f⌋).toNat (fracLePred s log) hu]
    · have hmk : (⌊(k : ℚ) * f⌋).toNat ≤ k := by
        rcases Nat.eq_zero_or_pos k with hk0 | hkpos
        · rw [hk0]
          norm_num
        · have hcast : (0 : ℚ) < (k : ℚ) := by exact_mod_cast hkpos
          have hup : (k : ℚ) * f < (k : ℚ) := by
            calc (k : ℚ) * f < (k : ℚ) * 1 := by
                  exact mul_lt_mul_of_pos_left h1 hcast
            _ = (k : ℚ) := mul_one _
          have hfl : ⌊(k : ℚ) * f⌋ < (k : ℤ) := Int.floor_lt.2 (by exact_mod_cast hup)
          omega
      omega
    · intro p hp
      have hkpos : 0 < k := by
        rw [hk]
        exact List.length_pos_of_mem hp
      have hcast : (0 : ℚ) < (k : ℚ) := by exact_mod_cast hkpos
      have hpu : p.2.user = u := ((mem_userRows log u p).1 hp).2
      rw [fracLePred]
      apply decide_eq_decide.mpr
      unfold rowNumBy
      rw [hpu]
      set cn := predCount (s.prec randFn) (userRows log u) p with hcn
      rw [← hk]
      constructor
      · intro hle
        have h2 : ((cn + 1 : Nat) : ℚ) ≤ f * (k : ℚ) := (div_le_iff hcast).1 hle
        have h3 : ((cn + 1 : Int) : ℚ) ≤ (k : ℚ) * f := by
          rw [mul_comm] at h2
          exact_mod_cast h2
        have h4 : (cn + 1 : Int) ≤ ⌊(k : ℚ) * f⌋ := Int.le_floor.2 h3
        omega
      · intro hlt
        have h4 : (cn + 1 : Int) ≤ ⌊(k : ℚ) * f⌋ := by omega
        have h3 : ((cn + 1 : Int) : ℚ) ≤ (k : ℚ) * f := Int.le_floor.1 h4
        rw [div_le_iff hcast, mul_comm f]
        exact_mod_cast h3

/-- C4: in count mode (`item_test_size = n`, an integer `n >= 1`), a
candidate test user with `k` events contributes exactly `n` rows to test when
`n <= k`, and all `k` of its rows when `n > k`. -/
theorem C4_count_mode (s : UserSplitter) (randFn : RandSource)
    (log : List Row) (tu : List Nat) (u : Nat) (train test : List IRow) (n : ℤ)
    (hits : s.item_test_size = .int n) (hn : 1 ≤ n)
    (htu : s.getTestUsers randFn log = .ok tu) (hu : u ∈ tu)
    (h : s.coreSplit randFn log = .ok (train, test)) :
    (n ≤ ((userRows log u).length : ℤ) →
        ((test.filter (fun p => p.2.user == u)).length : ℤ) = n)
      ∧ (((userRows log u).length : ℤ) < n →
        (test.filter (fun p => p.2.user == u)).length = (userRows log u).length) := by
  have hval : s.item_test_size.val = (n : ℚ) := by
    rw [hits]
    rfl
  unfold UserSplitter.coreSplit at h
  rw [if_neg, if_pos] at h
  · rw [splitQuantity_eq s randFn log tu htu, Except.ok.injEq, Prod.mk.injEq] at h
    obtain ⟨h1e, h2e⟩ := h
    subst h1e
    subst h2e
    have hcnt : ((((rankedLog (s.prec randFn) log).filter
        (fun x => numLePred s x && isTUPred tu x.1)).map (fun x => x.1)).filter
        (fun p => p.2.user == u)).length = min n.toNat (userRows log u).length := by
      apply test_count_min s randFn log tu u n.toNat (numLePred s) hu
      intro p hp
      rw [numLePred, hval]
      apply decide_eq_decide.mpr
      unfold rowNumBy
      set cn := predCount (s.prec randFn) (userRows log u) p with hcn
      constructor
      · intro hle
        have h2 : ((cn + 1 : Int) : ℚ) ≤ (n : ℚ) := by exact_mod_cast hle
        have h3 : (cn + 1 : Int) ≤ n := by exact_mod_cast h2
        omega
      · intro hlt
        have h3 : (cn + 1 : Int) ≤ n := by omega
        have h2 : ((cn + 1 : Int) : ℚ) ≤ (n : ℚ) := by exact_mod_cast h3
        exact_mod_cast h2
    rw [hcnt]
    constructor
    · intro hle
      omega
    · intro hgt
      omega
  · constructor
    · rw [hval]
      exact_mod_cast hn
    · rw [hits]
      rfl
  · rintro ⟨-, hlt⟩
    rw [hval] at hlt
    have : n < 1 := by exact_mod_cast hlt
    omega

/-! ### Concrete witnesses -/

/-- Witness for C1 on a one-row log with the default configuration. -/
theorem C1_core_split_partition_witness :
    (([] ++ [((0 : Nat), (⟨1, 1, 1, 1⟩ : Row))]).Perm (enumLog [⟨1, 1, 1, 1⟩]))
      ∧ ∀ p : IRow, ¬(p ∈ ([] : List IRow) ∧ p ∈ [((0 : Nat), (⟨1, 1, 1, 1⟩ : Row))]) :=
  C1_core_split_partition ⟨.int 1, none, false, none⟩ (fun _ _ => 0) [⟨1, 1, 1, 1⟩]
    [] [(0, ⟨1, 1, 1, 1⟩)] rfl

/-- Witness for C2: user 1 has the spec example's items `[1,2,3]` with
timestamps `[1,2,3]`; `user_test_size = 1` samples the proper candidate
subset `[1]` out of users `{1, 2}`, and with `item_test_size = 1`,
`shuffle = false` exactly item 3 — user 1's latest — is in test, while items
1, 2 and user 2's row are in train. -/
theorem C2_temporal_count_mode_witness :
    ((⟨.int 1, some (.int 1), false, none⟩ : UserSplitter).coreSplit (fun _ _ => 0)
        [⟨1, 1, 1, 1⟩, ⟨1, 2, 2, 2⟩, ⟨1, 3, 3, 3⟩, ⟨2, 1, 1, 1⟩]
      = .ok ([(0, ⟨1, 1, 1, 1⟩), (1, ⟨1, 2, 2, 2⟩), (3, ⟨2, 1, 1, 1⟩)],
             [(2, ⟨1, 3, 3, 3⟩)]))
    ∧ ((∀ p : IRow, p.2.user = 1 →
          (p ∈ [((2 : Nat), (⟨1, 3, 3, 3⟩ : Row))] ↔
            p ∈ enumLog [⟨1, 1, 1, 1⟩, ⟨1, 2, 2, 2⟩, ⟨1, 3, 3, 3⟩, ⟨2, 1, 1, 1⟩]
              ∧ (rowNum timePrec [⟨1, 1, 1, 1⟩, ⟨1, 2, 2, 2⟩, ⟨1, 3, 3, 3⟩, ⟨2, 1, 1, 1⟩] p : ℤ)
                ≤ 1))
        ∧ ∀ p : IRow, p ∈ enumLog [⟨1, 1, 1, 1⟩, ⟨1, 2, 2, 2⟩, ⟨1, 3, 3, 3⟩, ⟨2, 1, 1, 1⟩] →
            (∀ q ∈ userRows [⟨1, 1, 1, 1⟩, ⟨1, 2, 2, 2⟩, ⟨1, 3, 3, 3⟩, ⟨2, 1, 1, 1⟩] p.2.user,
              q ≠ p → q.2.ts < p.2.ts) →
            rowNum timePrec [⟨1, 1, 1, 1⟩, ⟨1, 2, 2, 2⟩, ⟨1, 3, 3, 3⟩, ⟨2, 1, 1, 1⟩] p = 1) :=
  ⟨rfl, C2_temporal_count_mode ⟨.int 1, some (.int 1), false, none⟩ (fun _ _ => 0)
    [⟨1, 1, 1, 1⟩, ⟨1, 2, 2, 2⟩, ⟨1, 3, 3, 3⟩, ⟨2, 1, 1, 1⟩] 1 [1] 1
    [(0, ⟨1, 1, 1, 1⟩), (1, ⟨1, 2, 2, 2⟩), (3, ⟨2, 1, 1, 1⟩)] [(2, ⟨1, 3, 3, 3⟩)]
    rfl (by norm_num) rfl rfl (by decide) rfl⟩

/-- Witness for C3: `item_test_size = 1/2` on a user with 3 events holds out
`⌊3 * 1/2⌋ = 1` row (and a single-event user would get `⌊1 * 1/2⌋ = 0`). -/
theorem C3_fractional_mode_witness :
    (∀ p : IRow, p ∈ enumLog [⟨1, 1, 1, 1⟩, ⟨1, 2, 2, 2⟩, ⟨1, 3, 3, 3⟩] → p.2.user = 1 →
        (p ∈ [((2 : Nat), (⟨1, 3, 3, 3⟩ : Row))] ↔
          ((rowNum ((⟨.float (1/2), none, false, none⟩ : UserSplitter).prec (fun _ _ => 0))
              [⟨1, 1, 1, 1⟩, ⟨1, 2, 2, 2⟩, ⟨1, 3, 3, 3⟩] p : ℚ)
            / ((userRows [⟨1, 1, 1, 1⟩, ⟨1, 2, 2, 2⟩, ⟨1, 3, 3, 3⟩] 1).length : ℚ)
            ≤ (⟨.float (1/2), none, false, none⟩ : UserSplitter).item_test_size.val)))
      ∧ ([((2 : Nat), (⟨1, 3, 3, 3⟩ : Row))].filter (fun p => p.2.user == 1)).length
          = (⌊((userRows [⟨1, 1, 1, 1⟩, ⟨1, 2, 2, 2⟩, ⟨1, 3, 3, 3⟩] 1).length : ℚ)
              * (⟨.float (1/2), none, false, none⟩ : UserSplitter).item_test_size.val⌋).toNat :=
  C3_fractional_mode ⟨.float (1/2), none, false, none⟩ (fun _ _ => 0)
    [⟨1, 1, 1, 1⟩, ⟨1, 2, 2, 2⟩, ⟨1, 3, 3, 3⟩] [1] 1
    [(0, ⟨1, 1, 1, 1⟩), (1, ⟨1, 2, 2, 2⟩)] [(2, ⟨1, 3, 3, 3⟩)]
    (by norm_num [PyNum.val]) (by norm_num [PyNum.val]) rfl (by decide)
    (by
      have htu : (⟨.float (1/2), none, false, none⟩ : UserSplitter).getTestUsers
          (fun _ _ => 0) [⟨1, 1, 1, 1⟩, ⟨1, 2, 2, 2⟩, ⟨1, 3, 3, 3⟩] = .ok [1] := rfl
      unfold UserSplitter.coreSplit
      rw [if_pos (by norm_num [PyNum.val])]
      rw [splitProportion_eq _ _ _ _ htu]
      norm_num [rankedLog, enumLog, rowNum, rowNumBy, predCount, userRows, timePrec,
        UserSplitter.prec, fracLePred, isTUPred, PyNum.val, List.filter, allUsers])

/-- Witness for C4: `item_test_size = 2` on a user with 3 events puts exactly
2 rows in test. -/
theorem C4_count_mode_witness :
    ((2 : ℤ) ≤ ((userRows [⟨1, 1, 1, 1⟩, ⟨1, 2, 2, 2⟩, ⟨1, 3, 3, 3⟩] 1).length : ℤ) →
        ((([((1 : Nat), (⟨1, 2, 2, 2⟩ : Row)), ((2 : Nat), (⟨1, 3, 3, 3⟩ : Row))].filter
            (fun p => p.2.user == 1)).length : ℤ) = 2))
      ∧ (((userRows [⟨1, 1, 1, 1⟩, ⟨1, 2, 2, 2⟩, ⟨1, 3, 3, 3⟩] 1).length : ℤ) < 2 →
        ([((1 : Nat), (⟨1, 2, 2, 2⟩ : Row)), ((2 : Nat), (⟨1, 3, 3, 3⟩ : Row))].filter
            (fun p => p.2.user == 1)).length
          = (userRows [⟨1, 1, 1, 1⟩, ⟨1, 2, 2, 2⟩, ⟨1, 3, 3, 3⟩] 1).length) :=
  C4_count_mode ⟨.int 2, none, false, none⟩ (fun _ _ => 0)
    [⟨1, 1, 1, 1⟩, ⟨1, 2, 2, 2⟩, ⟨1, 3, 3, 3⟩] [1] 1
    [(0, ⟨1, 1, 1, 1⟩)] [(1, ⟨1, 2, 2, 2⟩), (2, ⟨1, 3, 3, 3⟩)] 2
    rfl (by norm_num) rfl (by decide) rfl

/-- Witness for C6: `user_test_size = 1.2` on a single-user log raises the
parameter error. -/
theorem C6_user_test_size_validation_witness :
    (⟨.int 1, some (.float (6/5)), false, none⟩ : UserSplitter).getTestUsers
        (fun _ _ => 0) [⟨1, 1, 1, 1⟩] = .error .invalidUserTestSize :=
  (C6_user_test_size_validation ⟨.int 1, some (.float (6/5)), false, none⟩
    (fun _ _ => 0) [⟨1, 1, 1, 1⟩] (.float (6/5)) rfl).mpr
    (by norm_num [PyNum.isInt, PyNum.val])

/-- Witness for C7: with one sampled test user out of two, the other user's
row goes to train and not to test. -/
theorem C7_non_test_users_to_train_witness :
    (∀ p : IRow, p ∈ enumLog [⟨1, 1, 1, 1⟩, ⟨2, 2, 2, 2⟩] → p.2.user = 2 →
        p ∈ [((1 : Nat), (⟨2, 2, 2, 2⟩ : Row))]
          ∧ p ∉ [((0 : Nat), (⟨1, 1, 1, 1⟩ : Row))])
      ∧ ((⟨.int 1, some (.int 1), false, none⟩ : UserSplitter).user_test_size = none →
          [1] = allUsers [⟨1, 1, 1, 1⟩, ⟨2, 2, 2, 2⟩]) :=
  C7_non_test_users_to_train ⟨.int 1, some (.int 1), false, none⟩ (fun _ _ => 0)
    [⟨1, 1, 1, 1⟩, ⟨2, 2, 2, 2⟩] [1] 2
    [(1, ⟨2, 2, 2, 2⟩)] [(0, ⟨1, 1, 1, 1⟩)]
    rfl (by decide) rfl

/-- Witness for C8: two random sources that agree at the configured seed give
identical splits with `shuffle = true`. -/
theorem C8_determinism_witness :
    (⟨.int 1, none, true, none⟩ : UserSplitter).coreSplit (fun _ _ => 0)
        [⟨1, 1, 1, 1⟩, ⟨1, 2, 2, 2⟩]
      = (⟨.int 1, none, true, none⟩ : UserSplitter).coreSplit
        (fun sd _ => match sd with | some _ => 1 | none => 0)
        [⟨1, 1, 1, 1⟩, ⟨1, 2, 2, 2⟩] :=
  C8_determinism ⟨.int 1, none, true, none⟩ (fun _ _ => 0)
    (fun sd _ => match sd with | some _ => 1 | none => 0)
    [⟨1, 1, 1, 1⟩, ⟨1, 2, 2, 2⟩] rfl (by funext n; rfl)

/-- Witness for C9: `item_test_size = 0` returns the whole log as train and
an empty test, here with `shuffle = true` and a set seed. -/
theorem C9_zero_item_test_size_witness :
    (⟨.float 0, none, true, some 3⟩ : UserSplitter).coreSplit (fun _ n => (n : ℚ))
        [⟨1, 1, 1, 1⟩, ⟨1, 2, 2, 2⟩]
      = .ok (enumLog [⟨1, 1, 1, 1⟩, ⟨1, 2, 2, 2⟩], []) :=
  C9_zero_item_test_size ⟨.float 0, none, true, some 3⟩ (fun _ n => (n : ℚ))
    [⟨1, 1, 1, 1⟩, ⟨1, 2, 2, 2⟩] [1] rfl rfl

/-- Witness for C10: the old `_core_split` raises `TypeError` at
`test_size = 1/2` and the `ValueError` at `test_size = -1`. -/
theorem C10_old_core_split_always_fails_witness :
    (⟨(1 : ℚ)/2, 0⟩ : UserLogSplitter).coreSplit = .error .typeError
      ∧ (⟨(-1 : ℚ), 0⟩ : UserLogSplitter).coreSplit = .error .invalidItemTestSize :=
  ⟨(C10_old_core_split_always_fails ⟨(1 : ℚ)/2, 0⟩).1 (by norm_num),
   (C10_old_core_split_always_fails ⟨(-1 : ℚ), 0⟩).2 (by norm_num)⟩

end RePlay
